import Mathlib

/-!
# Verification of the Neural Control Core (`src/hardware_export/nca_agent.c`)

Shallow embedding of the four per-tick operations of the core:
`nca_forward`, `nca_act`, `nca_rssi`, `nca_get_neighbor_count`.

Modelling conventions:
* C `float` arithmetic is idealised: the purely rational operations
  (`nca_rssi`, `nca_get_neighbor_count`) are embedded over `ℚ`, the
  transcendental ones (`tanhf`, `expf`, `sqrtf` in `nca_forward` / `nca_act`)
  over `ℝ` with `Real.tanh`, `Real.exp`, `Real.sqrt`.
* The static scratch buffers `hidden` and `output_buf` of the C file are made
  explicit as a `Buffers` value threaded through the calls, so that
  statelessness of the observable output is a theorem, not an artefact.
* The C library random source (`rand()`, advanced by `nca_act`) is modelled as
  a stream of already-normalised draws `rand() / RAND_MAX : ℝ` together with a
  position; each `rand()` call reads the current draw and advances the
  position by one.
* Network dimensions `NCA_INPUT_SIZE`, `NCA_HIDDEN_SIZE`, `NCA_OUTPUT_SIZE`
  come from the (externally generated) parameter header; they are kept
  abstract, with the output size of the form `o + 2` because `nca_act` reads
  `output[0]` and `output[1]`.
-/

namespace NCA

/-- Runtime configuration `default_config`: exploration-noise magnitude and
maximum motor speed. -/
structure AgentConfig where
  noise : ℝ
  speed : ℝ

/-- Immutable network parameters `w1`, `b1`, `w2`, `b2` from the generated
parameter header, indexed as in the C arrays (`w1[i][j]` etc.). -/
structure NCAParams (I H O : ℕ) where
  w1 : Fin I → Fin H → ℝ
  b1 : Fin H → ℝ
  w2 : Fin H → Fin O → ℝ
  b2 : Fin O → ℝ

/-- The static scratch buffers `hidden` and `output_buf` of `nca_agent.c`,
made an explicit value so their cross-call behaviour can be stated. -/
structure Buffers (H O : ℕ) where
  hidden : Fin H → ℝ
  output_buf : Fin O → ℝ

/-- State of the process-wide random source: the stream of normalised draws
`(float)rand() / RAND_MAX` and the current position in it. -/
structure RngState where
  stream : ℕ → ℝ
  pos : ℕ

/-- One evaluation of `(float)rand() / RAND_MAX`: yields the current draw and
the advanced state. -/
def rand01 (s : RngState) : ℝ × RngState :=
  (s.stream s.pos, ⟨s.stream, s.pos + 1⟩)

/-- `nca_forward`: two dense layers with elementwise `tanh`.  Both scratch
buffers are fully overwritten (every `hidden[j]` and `output_buf[k]` is
assigned before being read), and the output is a copy of `output_buf`. -/
noncomputable def nca_forward {I H O : ℕ} (p : NCAParams I H O) (buf : Buffers H O)
    (input : Fin I → ℝ) : Buffers H O × (Fin O → ℝ) :=
  let hidden : Fin H → ℝ := fun j => Real.tanh (p.b1 j + ∑ i, input i * p.w1 i j)
  let outb : Fin O → ℝ := fun k => Real.tanh (p.b2 k + ∑ j, hidden j * p.w2 j k)
  ({ buf with hidden := hidden, output_buf := outb }, outb)

/-- The literal `0.01f` in `nca_act`, idealised as `1/100`. -/
noncomputable def decayRate : ℝ := 1 / 100

/-- The exploration-noise scale of `nca_act`:
`default_config.noise * expf(-default_config.noise * 0.01f)`. -/
noncomputable def noise_scale (cfg : AgentConfig) : ℝ :=
  cfg.noise * Real.exp (-(cfg.noise * decayRate))

/-- The final clamp of `nca_act`: if the 2D magnitude exceeds `max_speed`,
rescale both components by `max_speed / magnitude`. -/
noncomputable def clampToSpeed (max_speed : ℝ) (v : ℝ × ℝ) : ℝ × ℝ :=
  let magnitude := Real.sqrt (v.1 * v.1 + v.2 * v.2)
  if magnitude > max_speed then
    (v.1 / magnitude * max_speed, v.2 / magnitude * max_speed)
  else v

/-- `nca_act`: forward pass, noise injection (one `rand()` draw per axis,
recentred by `- 0.5f` and scaled by `noise_scale`), then the magnitude clamp.
Returns the motor command together with the updated scratch buffers and
random-source state. -/
noncomputable def nca_act {I H o : ℕ} (p : NCAParams I H (o + 2)) (cfg : AgentConfig)
    (buf : Buffers H (o + 2)) (s : RngState) (input : Fin I → ℝ) :
    (ℝ × ℝ) × Buffers H (o + 2) × RngState :=
  let fw := nca_forward p buf input
  let d1 := rand01 s
  let dx0 := fw.2 0 * cfg.speed + (d1.1 - 1 / 2) * noise_scale cfg
  let d2 := rand01 d1.2
  let dy0 := fw.2 1 * cfg.speed + (d2.1 - 1 / 2) * noise_scale cfg
  (clampToSpeed cfg.speed (dx0, dy0), fw.1, d2.2)

/-- `nca_rssi`: zero beyond `max_distance`, otherwise a linear falloff. -/
def nca_rssi (distance max_distance : ℚ) : ℚ :=
  if distance > max_distance then 0 else 1 - distance / max_distance

/-- `nca_get_neighbor_count`: left-to-right loop over the distance samples,
incrementing the count for every entry strictly below the threshold. -/
def nca_get_neighbor_count (distances : List ℚ) (range_threshold : ℚ) : ℕ :=
  distances.foldl (fun count d => if d < range_threshold then count + 1 else count) 0

/-- Concrete zero network parameters (sizes 1, 1, 2) for instantiating the
universally quantified theorems. -/
noncomputable def testParams : NCAParams 1 1 2 :=
  ⟨fun _ _ => 0, fun _ => 0, fun _ _ => 0, fun _ => 0⟩

/-- Concrete configuration: zero noise, unit speed. -/
noncomputable def testCfg : AgentConfig := ⟨0, 1⟩

/-- Concrete scratch-buffer contents. -/
noncomputable def testBuf : Buffers 1 2 := ⟨fun _ => 0, fun _ => 0⟩

/-- A second, different scratch-buffer state. -/
noncomputable def testBuf2 : Buffers 1 2 := ⟨fun _ => 3, fun _ => 4⟩

/-- Concrete random-source state. -/
noncomputable def testRng : RngState := ⟨fun _ => 0, 0⟩

/-- A second, different random-source state. -/
noncomputable def testRng2 : RngState := ⟨fun _ => 1, 7⟩

/-- Concrete sensory input. -/
noncomputable def testInput : Fin 1 → ℝ := fun _ => 0

/-- The fold of `nca_get_neighbor_count` with an arbitrary starting count. -/
lemma neighbor_count_foldl_eq (t : ℚ) :
    ∀ (ds : List ℚ) (acc : ℕ),
      ds.foldl (fun count d => if d < t then count + 1 else count) acc =
        acc + ds.countP (fun d => decide (d < t)) := by
  intro ds
  induction ds with
  | nil => intro acc; simp
  | cons d ds ih =>
      intro acc
      by_cases h : d < t
      · simp [List.foldl_cons, List.countP_cons, h, ih]
        omega
      · simp [List.foldl_cons, List.countP_cons, h, ih]

end NCA

open NCA

/-- C5: `nca_get_neighbor_count` counts exactly the entries strictly less than
the threshold; an entry equal to the threshold is not counted.  In particular
the count over `[1,2,3,4,5]` at threshold `3` is `2`, and over `[3]` at
threshold `3` is `0`. -/
theorem nca_neighbor_count_strict_lt :
    (∀ (ds : List ℚ) (t : ℚ),
        nca_get_neighbor_count ds t = ds.countP (fun d => decide (d < t))) ∧
    nca_get_neighbor_count [1, 2, 3, 4, 5] 3 = 2 ∧
    nca_get_neighbor_count [3] 3 = 0 := by
  refine ⟨fun ds t => ?_, by norm_num [nca_get_neighbor_count],
    by norm_num [nca_get_neighbor_count]⟩
  simpa using neighbor_count_foldl_eq t ds 0

/-- C6: `nca_rssi` returns `0` exactly when the distance exceeds
`max_distance` and `1 - distance / max_distance` otherwise, with the four
concrete values of the test suite. -/
theorem nca_rssi_piecewise_values :
    (∀ d m : ℚ, (m < d → nca_rssi d m = 0) ∧ (d ≤ m → nca_rssi d m = 1 - d / m)) ∧
    nca_rssi 0 10 = 1 ∧ nca_rssi 5 10 = 1 / 2 ∧
    nca_rssi 10 10 = 0 ∧ nca_rssi 15 10 = 0 := by
  refine ⟨fun d m => ⟨fun h => ?_, fun h => ?_⟩, by norm_num [nca_rssi],
    by norm_num [nca_rssi], by norm_num [nca_rssi], by norm_num [nca_rssi]⟩
  · simp [nca_rssi, h]
  · simp [nca_rssi, not_lt.mpr h]

/-- C6 witness: the piecewise clause applied at `d = 15`, `m = 10`. -/
theorem nca_rssi_piecewise_values_witness : nca_rssi 15 10 = 0 :=
  (nca_rssi_piecewise_values.1 15 10).1 (by norm_num)

/-- C3 counterexample: at a negative distance the result exceeds `1`, so the
claim's unrestricted quantification over all distances fails:
`nca_rssi (-5) 10 = 3/2`. -/
theorem nca_rssi_unrestricted_range_counterexample :
    ¬ (0 ≤ nca_rssi (-5) 10 ∧ nca_rssi (-5) 10 ≤ 1) := by
  norm_num [nca_rssi]

/-- C3 (amended): for nonnegative distances and positive `max_distance` the
result lies in `[0, 1]`, and for positive `max_distance` the result is
monotonically non-increasing in the distance. -/
theorem nca_rssi_range_and_antitone (d d₁ d₂ m : ℚ)
    (hd : 0 ≤ d) (hm : 0 < m) (h12 : d₁ ≤ d₂) :
    (0 ≤ nca_rssi d m ∧ nca_rssi d m ≤ 1) ∧ nca_rssi d₂ m ≤ nca_rssi d₁ m := by
  constructor
  · by_cases h : d > m
    · simp [nca_rssi, h]
    · have hle : d ≤ m := not_lt.mp h
      have h1 : d / m ≤ 1 := (div_le_one hm).mpr hle
      have h2 : 0 ≤ d / m := div_nonneg hd hm.le
      simp only [nca_rssi, if_neg h]
      constructor <;> linarith
  · by_cases h2 : d₂ > m
    · by_cases h1 : d₁ > m
      · simp [nca_rssi, h1, h2]
      · have hle : d₁ ≤ m := not_lt.mp h1
        have : d₁ / m ≤ 1 := (div_le_one hm).mpr hle
        simp only [nca_rssi, if_pos h2, if_neg h1]
        linarith
    · have hle2 : d₂ ≤ m := not_lt.mp h2
      have h1 : ¬ d₁ > m := not_lt.mpr (le_trans h12 hle2)
      have hdiv : d₁ / m ≤ d₂ / m := by gcongr
      simp only [nca_rssi, if_neg h2, if_neg h1]
      linarith

/-- C3 witness: the amended statement at `d = 5`, `d₁ = 1`, `d₂ = 2`,
`m = 10`. -/
theorem nca_rssi_range_and_antitone_witness :
    (0 ≤ nca_rssi 5 10 ∧ nca_rssi 5 10 ≤ 1) ∧ nca_rssi 2 10 ≤ nca_rssi 1 10 :=
  nca_rssi_range_and_antitone 5 1 2 10 (by norm_num) (by norm_num) (by norm_num)

/-- `tanh` is bounded by `1` in absolute value. -/
lemma abs_tanh_le_one (x : ℝ) : |Real.tanh x| ≤ 1 := by
  rw [Real.tanh_eq_sinh_div_cosh, abs_div, abs_of_pos (Real.cosh_pos x),
    div_le_one (Real.cosh_pos x), abs_le]
  constructor
  · have h := Real.sinh_lt_cosh (-x)
    rw [Real.sinh_neg, Real.cosh_neg] at h
    linarith
  · exact (Real.sinh_lt_cosh x).le

/-- C2: every component of the `nca_forward` output lies in `[-1, 1]`,
being the `tanh` of the biased weighted sum. -/
theorem nca_forward_output_bounded {I H O : ℕ} (p : NCAParams I H O)
    (buf : Buffers H O) (input : Fin I → ℝ) (k : Fin O) :
    (nca_forward p buf input).2 k ∈ Set.Icc (-1 : ℝ) 1 := by
  have h := abs_tanh_le_one
    (p.b2 k + ∑ j, Real.tanh (p.b1 j + ∑ i, input i * p.w1 i j) * p.w2 j k)
  rw [abs_le] at h
  simpa [nca_forward, Set.mem_Icc] using h

/-- C8: the `nca_forward` output does not depend on the retained scratch-buffer
state, and running the pass again on the buffers it itself produced yields the
same output — the engine is pure and deterministic given fixed parameters. -/
theorem nca_forward_pure_stateless {I H O : ℕ} (p : NCAParams I H O)
    (b₁ b₂ : Buffers H O) (input : Fin I → ℝ) :
    (nca_forward p b₁ input).2 = (nca_forward p b₂ input).2 ∧
    (nca_forward p (nca_forward p b₁ input).1 input).2 = (nca_forward p b₁ input).2 :=
  ⟨rfl, rfl⟩

/-- When the pre-clamp magnitude exceeds the bound, the clamped pair has
magnitude exactly the bound. -/
lemma clampToSpeed_norm_eq (sp : ℝ) (hsp : 0 < sp) (v : ℝ × ℝ)
    (h : Real.sqrt (v.1 * v.1 + v.2 * v.2) > sp) :
    Real.sqrt ((clampToSpeed sp v).1 * (clampToSpeed sp v).1 +
      (clampToSpeed sp v).2 * (clampToSpeed sp v).2) = sp := by
  have hm0 : 0 < Real.sqrt (v.1 * v.1 + v.2 * v.2) := lt_trans hsp h
  have hnn : (0 : ℝ) ≤ v.1 * v.1 + v.2 * v.2 := by nlinarith [sq_nonneg v.1, sq_nonneg v.2]
  have hmm : Real.sqrt (v.1 * v.1 + v.2 * v.2) * Real.sqrt (v.1 * v.1 + v.2 * v.2) =
      v.1 * v.1 + v.2 * v.2 := Real.mul_self_sqrt hnn
  have hpos : 0 < v.1 * v.1 + v.2 * v.2 := by rw [← hmm]; exact mul_pos hm0 hm0
  simp only [clampToSpeed, if_pos h]
  have e : v.1 / Real.sqrt (v.1 * v.1 + v.2 * v.2) * sp *
        (v.1 / Real.sqrt (v.1 * v.1 + v.2 * v.2) * sp) +
      v.2 / Real.sqrt (v.1 * v.1 + v.2 * v.2) * sp *
        (v.2 / Real.sqrt (v.1 * v.1 + v.2 * v.2) * sp) =
      (v.1 * v.1 + v.2 * v.2) /
        (Real.sqrt (v.1 * v.1 + v.2 * v.2) * Real.sqrt (v.1 * v.1 + v.2 * v.2)) *
        (sp * sp) := by ring
  rw [e, hmm, div_self (ne_of_gt hpos), one_mul, Real.sqrt_mul_self hsp.le]

/-- The clamp never lets the magnitude exceed the bound. -/
lemma clampToSpeed_norm_le (sp : ℝ) (hsp : 0 < sp) (v : ℝ × ℝ) :
    Real.sqrt ((clampToSpeed sp v).1 * (clampToSpeed sp v).1 +
      (clampToSpeed sp v).2 * (clampToSpeed sp v).2) ≤ sp := by
  by_cases h : Real.sqrt (v.1 * v.1 + v.2 * v.2) > sp
  · exact le_of_eq (clampToSpeed_norm_eq sp hsp v h)
  · simp only [clampToSpeed, if_neg h]
    exact not_lt.mp h

/-- C1: the motor command returned by `nca_act` has 2D magnitude at most
`config.speed`; moreover whenever the pre-clamp magnitude exceeds
`config.speed`, both components are rescaled by `speed / magnitude` and the
resulting magnitude is exactly `config.speed`. -/
theorem nca_act_magnitude_clamped {I H o : ℕ} (p : NCAParams I H (o + 2))
    (cfg : AgentConfig) (buf : Buffers H (o + 2)) (s : RngState)
    (input : Fin I → ℝ) (hsp : 0 < cfg.speed) :
    Real.sqrt ((nca_act p cfg buf s input).1.1 * (nca_act p cfg buf s input).1.1 +
      (nca_act p cfg buf s input).1.2 * (nca_act p cfg buf s input).1.2) ≤ cfg.speed ∧
    ∀ v : ℝ × ℝ, Real.sqrt (v.1 * v.1 + v.2 * v.2) > cfg.speed →
      clampToSpeed cfg.speed v =
        (v.1 / Real.sqrt (v.1 * v.1 + v.2 * v.2) * cfg.speed,
         v.2 / Real.sqrt (v.1 * v.1 + v.2 * v.2) * cfg.speed) ∧
      Real.sqrt ((clampToSpeed cfg.speed v).1 * (clampToSpeed cfg.speed v).1 +
        (clampToSpeed cfg.speed v).2 * (clampToSpeed cfg.speed v).2) = cfg.speed := by
  constructor
  · obtain ⟨v, hv⟩ : ∃ v, (nca_act p cfg buf s input).1 = clampToSpeed cfg.speed v :=
      ⟨_, rfl⟩
    rw [hv]
    exact clampToSpeed_norm_le cfg.speed hsp v
  · intro v hv
    refine ⟨?_, clampToSpeed_norm_eq cfg.speed hsp v hv⟩
    simp only [clampToSpeed, if_pos hv]

/-- C1 witness: the magnitude bound at concrete parameters, configuration,
buffers, random state and input. -/
theorem nca_act_magnitude_clamped_witness :
    Real.sqrt ((nca_act testParams testCfg testBuf testRng testInput).1.1 *
        (nca_act testParams testCfg testBuf testRng testInput).1.1 +
      (nca_act testParams testCfg testBuf testRng testInput).1.2 *
        (nca_act testParams testCfg testBuf testRng testInput).1.2) ≤ testCfg.speed :=
  (nca_act_magnitude_clamped testParams testCfg testBuf testRng testInput
    (by norm_num [testCfg])).1

/-- C4: the exploration-noise scale equals
`config.noise * exp(-config.noise * DECAY_RATE)` with `DECAY_RATE = 1/100`;
it is the very scale appearing in both axes of every `nca_act` call for every
random-source state, and it depends only on the configured noise magnitude. -/
theorem noise_scale_config_only {I H o : ℕ} (p : NCAParams I H (o + 2))
    (cfg : AgentConfig) (buf : Buffers H (o + 2)) (s : RngState)
    (input : Fin I → ℝ) :
    noise_scale cfg = cfg.noise * Real.exp (-(cfg.noise * (1 / 100))) ∧
    (nca_act p cfg buf s input).1 = clampToSpeed cfg.speed
      ((nca_forward p buf input).2 0 * cfg.speed +
        (s.stream s.pos - 1 / 2) * noise_scale cfg,
       (nca_forward p buf input).2 1 * cfg.speed +
        (s.stream (s.pos + 1) - 1 / 2) * noise_scale cfg) ∧
    ∀ cfg' : AgentConfig, cfg'.noise = cfg.noise → noise_scale cfg' = noise_scale cfg := by
  refine ⟨rfl, rfl, fun cfg' h => ?_⟩
  simp [noise_scale, h]

/-- C4 witness: a configuration with the same noise but different speed has
the same noise scale. -/
theorem noise_scale_config_only_witness : noise_scale ⟨0, 5⟩ = noise_scale testCfg :=
  (noise_scale_config_only testParams testCfg testBuf testRng testInput).2.2 ⟨0, 5⟩ rfl

/-- C7: with `config.noise = 0` the motor command of `nca_act` does not depend
on the random-source state (nor on the retained scratch buffers): the decoder
is deterministic for fixed input and parameters. -/
theorem nca_act_deterministic_of_noise_zero {I H o : ℕ} (p : NCAParams I H (o + 2))
    (cfg : AgentConfig) (buf₁ buf₂ : Buffers H (o + 2)) (s₁ s₂ : RngState)
    (input : Fin I → ℝ) (h : cfg.noise = 0) :
    (nca_act p cfg buf₁ s₁ input).1 = (nca_act p cfg buf₂ s₂ input).1 := by
  have hns : noise_scale cfg = 0 := by simp [noise_scale, h]
  simp [nca_act, hns, nca_forward]

/-- C7 witness: the zero-noise configuration at two different buffer and
random states. -/
theorem nca_act_deterministic_of_noise_zero_witness :
    (nca_act testParams testCfg testBuf testRng testInput).1 =
      (nca_act testParams testCfg testBuf2 testRng2 testInput).1 :=
  nca_act_deterministic_of_noise_zero testParams testCfg testBuf testBuf2
    testRng testRng2 testInput rfl

/-- C10: every `nca_act` call advances the random source by exactly two draws
(one per axis), for every configuration — including zero noise — and every
input: the returned state has the same stream and position `pos + 2`. -/
theorem nca_act_draws_two_samples {I H o : ℕ} (p : NCAParams I H (o + 2))
    (cfg : AgentConfig) (buf : Buffers H (o + 2)) (s : RngState)
    (input : Fin I → ℝ) :
    (nca_act p cfg buf s input).2.2 = ⟨s.stream, s.pos + 2⟩ :=
  rfl

/-- C9: the four per-tick operations are total — each call produces a value —
and under the documented preconditions (`speed > 0`, `max_distance > 0`) every
internal division has a nonzero divisor: the clamp of `nca_act` divides by the
magnitude only when it exceeds `config.speed > 0`, and `nca_rssi` divides by
`max_distance` only in the branch where the distance does not exceed it. -/
theorem core_per_tick_total {I H o : ℕ} (p : NCAParams I H (o + 2))
    (cfg : AgentConfig) (buf : Buffers H (o + 2)) (s : RngState)
    (input : Fin I → ℝ) (ds : List ℚ) (t d m : ℚ)
    (hsp : 0 < cfg.speed) (hm : 0 < m) :
    (∃ r, nca_forward p buf input = r) ∧
    (∃ r, nca_act p cfg buf s input = r) ∧
    (∃ r, nca_rssi d m = r) ∧
    (∃ r, nca_get_neighbor_count ds t = r) ∧
    (∀ v : ℝ × ℝ, Real.sqrt (v.1 * v.1 + v.2 * v.2) > cfg.speed →
        Real.sqrt (v.1 * v.1 + v.2 * v.2) ≠ 0) ∧
    (¬ d > m → m ≠ 0) := by
  refine ⟨⟨_, rfl⟩, ⟨_, rfl⟩, ⟨_, rfl⟩, ⟨_, rfl⟩, fun v hv => ?_, fun _ => ne_of_gt hm⟩
  exact ne_of_gt (lt_trans hsp hv)

/-- C9 witness: totality of `nca_act` at concrete arguments with positive
speed and positive `max_distance`. -/
theorem core_per_tick_total_witness :
    ∃ r, nca_act testParams testCfg testBuf testRng testInput = r :=
  (core_per_tick_total testParams testCfg testBuf testRng testInput
    [1, 2] 3 5 10 (by norm_num [testCfg]) (by norm_num)).2.1
